import Mathlib

/-!
Verification of the rail decision-support scheduling core: a shallow
embedding of `src/main.py` and `src/schemas.py` of the Rail Decision
Support API, together with theorems settling the specification claims.

Modelling conventions:
* `datetime` instants are integers (seconds); `timedelta(minutes=m)` is `60*m`.
* Python `float` quantities (section lengths, speeds) are exact rationals `ℚ`.
* Python `dict` objects used as lookup tables are functions `String → Option _`
  built by repeated functional update (later insertions overwrite earlier ones,
  exactly like `d[k] = v`).
* `HTTPException` raised inside `generate_feasible_schedule` is an
  `Except String _` error value: the caller receives no schedule at all.
* `datetime.utcnow()` (used only for `Schedule.created_at`) is modelled as an
  explicit `now` argument of the scheduling function.
* `datetime.fromisoformat` on an override entry is modelled by storing the
  parse outcome in the entry itself: the raw-string parsing of the Python
  standard library is outside the repository; `none` in the outer option is a
  missing `enter_time` field (a `KeyError`), `some none` an unparsable string
  (a `ValueError`), `some (some t)` a string parsing to instant `t`.
-/

set_option maxRecDepth 16000

/-- Equality of `Except` values is decidable componentwise; used to evaluate
the scheduler on concrete inputs inside proofs. -/
instance {ε α : Type} [DecidableEq ε] [DecidableEq α] :
    DecidableEq (Except ε α)
  | .error a, .error b =>
    if h : a = b then .isTrue (by rw [h]) else
      .isFalse (fun hc => h (by injection hc))
  | .error _, .ok _ => .isFalse (fun hc => by injection hc)
  | .ok _, .error _ => .isFalse (fun hc => by injection hc)
  | .ok a, .ok b =>
    if h : a = b then .isTrue (by rw [h]) else
      .isFalse (fun hc => h (by injection hc))

/-- `service_type` enumeration of `schemas.Train`. -/
inductive ServiceType where
  | passenger
  | freight
  | maintenance
deriving DecidableEq

/-- `status` enumeration of `schemas.Train`. -/
inductive TrainStatus where
  | scheduled
  | running
  | delayed
  | completed
  | cancelled
deriving DecidableEq

/-- `schemas.Section`: a track segment.  `length_km` and `max_speed_kmh` are
Python floats, modelled as exact rationals; pydantic validates `length_km ≥ 0`
and `max_speed_kmh ≥ 10` (`Field(..., ge=0)` / `Field(120, ge=10)`), which the
theorems carry as hypotheses where they matter. -/
structure Section where
  id : String
  name : String
  length_km : ℚ
  single_track : Bool
  max_speed_kmh : ℚ
  crossing_loops : List String
deriving DecidableEq

/-- `schemas.Train`.  `planned_departure`/`planned_arrival` are instants
(seconds); `priority` is an integer (pydantic: 1–10). -/
structure Train where
  id : String
  service_type : ServiceType
  priority : ℤ
  length_m : Option ℤ
  max_speed_kmh : Option ℚ
  origin : String
  destination : String
  planned_departure : ℤ
  planned_arrival : Option ℤ
  route : List String
  status : TrainStatus
deriving DecidableEq

/-- `schemas.Incident`.  Not consumed by the scheduler; `type` and the open
`details` map are kept as plain strings/pairs. -/
structure Incident where
  id : String
  type : String
  section_id : Option String
  start_time : ℤ
  end_time : Option ℤ
  details : List (String × String)
deriving DecidableEq

/-- One record of the `fixed_enters` sequence inside `Scenario.overrides`.
Fields are optional because the Python dict may lack the key (`entry['...']`
raises `KeyError`); the `enter_time` value additionally records whether
`datetime.fromisoformat` succeeds (see the file header). -/
structure FixedEnterEntry where
  train_id : Option String
  section_id : Option String
  enter_time : Option (Option ℤ)
deriving DecidableEq

/-- `schemas.Scenario`.  `overrides` is an open configuration map whose only
key read by the code is `"fixed_enters"`; we model it by that sequence
(`overrides.get("fixed_enters", [])`), unrecognized keys being ignored. -/
structure Scenario where
  id : Option String
  name : String
  description : Option String
  trains : List Train
  incidents : List Incident
  overrides : List FixedEnterEntry
  created_by : Option String
  created_at : ℤ
deriving DecidableEq

/-- `schemas.ScheduleLeg`.  The scheduler always constructs legs with
`meet_pass_at = none`. -/
structure ScheduleLeg where
  train_id : String
  section_id : String
  enter_time : ℤ
  exit_time : ℤ
  meet_pass_at : Option String
deriving DecidableEq

/-- The `objective` dict built in `generate_feasible_schedule`:
`{"total_delay_min": total_delay, "throughput": throughput}`. -/
structure Objective where
  total_delay_min : ℚ
  throughput : ℕ
deriving DecidableEq

/-- `schemas.Schedule`.  `created_at` is filled from `datetime.utcnow()` at
construction time (pydantic `default_factory`), modelled as the `now`
argument of the scheduling function. -/
structure Schedule where
  scenario_id : Option String
  legs : List ScheduleLeg
  objective : Objective
  created_at : ℤ
deriving DecidableEq

/-- `main.WhatIfRequest`.  `delay_train_id : Optional[str]` is modelled as a
`String`, with `""` standing for both `None` and the empty string (both are
falsy in the guard `if req.delay_train_id and req.delay_minutes`). -/
structure WhatIfRequest where
  scenario : Scenario
  delay_train_id : String
  delay_minutes : ℤ
deriving DecidableEq

/-- Functional update of a Python-`dict`-as-function: `d[k] = v`. -/
def updateFn {α : Type} (m : String → Option α) (k : String) (v : α) :
    String → Option α :=
  fun k' => if k' = k then some v else m k'

/-- The dict comprehension `{s.id: s for s in sections}` in
`generate_feasible_schedule` (a later section with the same id overwrites an
earlier one). -/
def dictOf (sections : List Section) : String → Option Section :=
  sections.foldl (fun m s => updateFn m s.id s) (fun _ => none)

/-- `SAFE_HEADWAY_MIN = 5` from `main.py`. -/
def SAFE_HEADWAY_MIN : ℤ := 5

/-- Python `int(q)` on a float: truncation toward zero. -/
def ratTrunc (q : ℚ) : ℤ :=
  if q < 0 then -(⌊-q⌋) else ⌊q⌋

/-- `main.compute_run_time_minutes`.  Note the Python `or` in
`train.max_speed_kmh or section.max_speed_kmh`: a train speed of `0.0` is
falsy, so it falls back to the section speed just like `None` does. -/
def compute_run_time_minutes (sec : Section) (tr : Train) : ℤ :=
  let speed : ℚ := min sec.max_speed_kmh
    (match tr.max_speed_kmh with
      | none => sec.max_speed_kmh
      | some v => if v = 0 then sec.max_speed_kmh else v)
  let hours : ℚ := sec.length_km / max speed 1
  max 1 (ratTrunc (hours * 60))

/-- The body of one loop iteration of `main.parse_fixed_overrides`:
`key = f"{entry['train_id']}::{entry['section_id']}"` and
`datetime.fromisoformat(entry["enter_time"])`.  Returns `none` exactly when
the Python body raises (missing field or unparsable timestamp). -/
def entryParse (e : FixedEnterEntry) : Option (String × ℤ) :=
  match e.train_id, e.section_id, e.enter_time with
  | some t, some s, some (some time) => some (t ++ "::" ++ s, time)
  | _, _, _ => none

/-- Loop of `main.parse_fixed_overrides`.  The `try` block wraps the whole
`for` loop: the first entry whose processing raises aborts the loop, and the
dict accumulated so far is returned. -/
def parseFixedGo (fixed : String → Option ℤ) :
    List FixedEnterEntry → (String → Option ℤ)
  | [] => fixed
  | e :: rest =>
    match entryParse e with
    | some kv => parseFixedGo (updateFn fixed kv.1 kv.2) rest
    | none => fixed

/-- `main.parse_fixed_overrides`. -/
def parse_fixed_overrides (overrides : List FixedEnterEntry) :
    String → Option ℤ :=
  parseFixedGo (fun _ => none) overrides

/-- The Python sort key `lambda t: (-t.priority, t.planned_departure)` read
as a total preorder: `a` may come before `b` iff the key of `a` is
lexicographically at most the key of `b` (priority descending, then planned
departure ascending). -/
def commitLE (a b : Train) : Prop :=
  b.priority < a.priority ∨
    (a.priority = b.priority ∧ a.planned_departure ≤ b.planned_departure)

instance : DecidableRel commitLE := fun a b => by
  unfold commitLE; infer_instance

instance : IsTotal Train commitLE :=
  ⟨fun a b => by unfold commitLE; omega⟩

instance : IsTrans Train commitLE :=
  ⟨fun a b c hab hbc => by unfold commitLE at *; omega⟩

/-- `sorted(scenario.trains, key=lambda t: (-t.priority, t.planned_departure))`.
Python `sorted` is a stable sort with respect to this total preorder, and any
two stable sorts of the same list agree; `List.insertionSort` is stable, so
both compute the same list. -/
def trains_sorted (trains : List Train) : List Train :=
  List.insertionSort commitLE trains

/-- The composite key `f"{tr.id}::{sec_id}"`. -/
def legKey (train_id sec_id : String) : String :=
  train_id ++ "::" ++ sec_id

/-- `enter_time = fixed_enters.get(key, current_time)` (main.py line 80). -/
def candidateEnter (fixed : String → Option ℤ) (train_id sec_id : String)
    (current : ℤ) : ℤ :=
  match fixed (legKey train_id sec_id) with
  | some v => v
  | none => current

/-- The single-track headway adjustment (main.py lines 83–86): if the section
is single-track and a previous exit is recorded and the candidate violates
the 5-minute buffer, shift the enter time forward to `prev_exit + 5min`. -/
def headwayEnter (sec : Section) (last_exit : String → Option ℤ)
    (sec_id : String) (cand : ℤ) : ℤ :=
  if sec.single_track then
    match last_exit sec_id with
    | some prev =>
      if cand < prev + 60 * SAFE_HEADWAY_MIN then prev + 60 * SAFE_HEADWAY_MIN
      else cand
    | none => cand
  else cand

/-- Inner loop of `generate_feasible_schedule`: walk one train's route,
threading the per-section `last_exit` table and `current_time`.  Returns the
legs emitted for this train (the Python code appends them to the shared
`legs` list, which the outer loop below concatenates). -/
def runRoute (smap : String → Option Section) (fixed : String → Option ℤ)
    (tr : Train) (last_exit : String → Option ℤ) (current : ℤ) :
    List String → Except String (List ScheduleLeg × (String → Option ℤ) × ℤ)
  | [] => .ok ([], last_exit, current)
  | sec_id :: rest =>
    match smap sec_id with
    | none => .error ("Unknown section " ++ sec_id)
    | some sec =>
      let enter : ℤ :=
        headwayEnter sec last_exit sec_id
          (candidateEnter fixed tr.id sec_id current)
      let ex : ℤ := enter + 60 * compute_run_time_minutes sec tr
      match runRoute smap fixed tr (updateFn last_exit sec_id ex) ex rest with
      | .error e => .error e
      | .ok (ls, le, cur) =>
        .ok (⟨tr.id, sec_id, enter, ex, none⟩ :: ls, le, cur)

/-- Outer loop of `generate_feasible_schedule` over the sorted trains. -/
def runTrains (smap : String → Option Section) (fixed : String → Option ℤ) :
    List Train → (String → Option ℤ) →
    Except String (List ScheduleLeg × (String → Option ℤ))
  | [], last_exit => .ok ([], last_exit)
  | tr :: rest, last_exit =>
    match runRoute smap fixed tr last_exit tr.planned_departure tr.route with
    | .error e => .error e
    | .ok (ls, le, _) =>
      match runTrains smap fixed rest le with
      | .error e => .error e
      | .ok (ls2, le2) => .ok (ls ++ ls2, le2)

/-- The dict comprehension
`{t.id: (t.route[-1] if t.route else None) for t in scenario.trains}`. -/
def lastSectionsMap (trains : List Train) : String → Option (Option String) :=
  trains.foldl (fun m t => updateFn m t.id t.route.getLast?) (fun _ => none)

/-- The set comprehension computing `finished_trains`, and its cardinality:
`set(l.train_id for l in legs if last_sections.get(l.train_id) == l.section_id)`.
A Python set's size is the number of distinct elements, i.e. the length of
the deduplicated list of kept train ids. -/
def finished_trains (trains : List Train) (legs : List ScheduleLeg) :
    List String :=
  ((legs.filter (fun l =>
      decide (lastSectionsMap trains l.train_id = some (some l.section_id)))).map
    (fun l => l.train_id)).dedup

/-- `main.generate_feasible_schedule` up to the final `Schedule(...)`
construction: the emitted legs and the objective map. -/
def generate_core (sections : List Section) (scenario : Scenario) :
    Except String (List ScheduleLeg × Objective) :=
  match runTrains (dictOf sections) (parse_fixed_overrides scenario.overrides)
      (trains_sorted scenario.trains) (fun _ => none) with
  | .error e => .error e
  | .ok (legs, _) =>
    .ok (legs, ⟨0, (finished_trains scenario.trains legs).length⟩)

/-- `main.generate_feasible_schedule`.  `sections` is the section directory
(`get_domain_sections()`), `now` the wall clock read by the pydantic
`default_factory` for `Schedule.created_at`. -/
def generate_feasible_schedule (sections : List Section) (scenario : Scenario)
    (now : ℤ) : Except String Schedule :=
  (generate_core sections scenario).map
    (fun p => ⟨scenario.id, p.1, p.2, now⟩)

/-- The train-list mutation of `main.what_if`: under the guard
`if req.delay_train_id and req.delay_minutes:` (both falsy-checked), shift the
planned departure of the first train whose id matches, then `break`. -/
def applyDelayGo (x : String) (d : ℤ) : List Train → List Train
  | [] => []
  | t :: rest =>
    if t.id = x then
      { t with planned_departure := t.planned_departure + 60 * d } :: rest
    else t :: applyDelayGo x d rest

/-- `main.what_if`'s scenario modification, factored over the trains list. -/
def applyDelay (trains : List Train) (x : String) (d : ℤ) : List Train :=
  if x ≠ "" ∧ d ≠ 0 then applyDelayGo x d trains else trains

/-- The scenario actually scheduled by `main.what_if` (the Python code
mutates `req.scenario` in place before calling the sequencer). -/
def whatIfScenario (req : WhatIfRequest) : Scenario :=
  { req.scenario with
      trains := applyDelay req.scenario.trains req.delay_train_id
        req.delay_minutes }

/-- `main.what_if`: apply the delay, then reuse the same sequencer. -/
def what_if (sections : List Section) (req : WhatIfRequest) (now : ℤ) :
    Except String Schedule :=
  generate_feasible_schedule sections (whatIfScenario req) now

/-- Spec-side formula of claim C4, transcribed from the claim's words:
`max(1, floor((length_km / max(min(section.max_speed_kmh, train.max_speed_kmh
if set else section.max_speed_kmh), 1)) * 60))`, where "if set" reads as
"if not `None`".  Declared only to be compared with
`compute_run_time_minutes`. -/
def spec_run_time_minutes (sec : Section) (tr : Train) : ℤ :=
  let eff : ℚ := min sec.max_speed_kmh
    (match tr.max_speed_kmh with
      | none => sec.max_speed_kmh
      | some v => v)
  max 1 ⌊(sec.length_km / max eff 1) * 60⌋

/-- Spec-side throughput of claim C9, transcribed from the claim's words:
the count of (distinct) trains whose last emitted leg's section equals the
last element of that train's route.  Declared only to be compared with the
objective computed by `generate_core`. -/
def claimed_throughput (trains : List Train) (legs : List ScheduleLeg) : ℕ :=
  (trains.filter (fun t =>
    match (legs.filter (fun l => decide (l.train_id = t.id))).getLast? with
    | some l => decide (t.route.getLast? = some l.section_id)
    | none => false)).length

/-- Properties of the run of one train, relating its emitted legs to its
route: the legs cover exactly the route sections in order, carry the train's
id, and consecutive legs whose later candidate is not overridden never start
before the earlier leg's exit. -/
def blockOK (fixed : String → Option ℤ) (t : Train)
    (b : List ScheduleLeg) : Prop :=
  b.map (fun l => l.section_id) = t.route ∧
  (∀ l ∈ b, l.train_id = t.id) ∧
  List.Chain'
    (fun a c => fixed (legKey t.id c.section_id) = none →
      a.exit_time ≤ c.enter_time) b

/-- The single-track separation invariant over a leg sequence: any two legs
on the same section, if the directory marks that section single-track,
are separated by the safety headway (later-committed leg enters at least
5 minutes after the earlier-committed leg's exit). -/
def headwayOK (smap : String → Option Section) (legs : List ScheduleLeg) :
    Prop :=
  legs.Pairwise (fun a b => ∀ sec, smap a.section_id = some sec →
    sec.single_track = true → b.section_id = a.section_id →
    a.exit_time + 60 * SAFE_HEADWAY_MIN ≤ b.enter_time)

/-- Link between emitted legs and the `last_exit` table: every committed leg
on a single-track section exits no later than the recorded last exit for
that section. -/
def exitsBelow (smap : String → Option Section) (legs : List ScheduleLeg)
    (last_exit : String → Option ℤ) : Prop :=
  ∀ l ∈ legs, ∀ sec, smap l.section_id = some sec →
    sec.single_track = true →
    ∃ e, last_exit l.section_id = some e ∧ l.exit_time ≤ e

/-! Concrete sections, trains and scenarios used to instantiate the theorems
below on explicit inputs (witnesses and counterexamples).  `Wsec1` and
`Wsec2` mirror the seeded default directory: single-track sections of
10 km at 110 km/h and 18 km at 120 km/h. -/

def Wsec1 : Section := ⟨"S1", "Alpha-Loop", 10, true, 110, ["A"]⟩

def Wsec2 : Section := ⟨"S2", "Beta-Plain", 18, true, 120, ["B"]⟩

def WtrainA : Train :=
  ⟨"A", .passenger, 8, none, none, "O", "D", 0, none, ["S1"], .scheduled⟩

def WtrainB : Train :=
  ⟨"B", .passenger, 5, none, none, "O", "D", 0, none, ["S1"], .scheduled⟩

/-- Two trains competing for the single-track section S1. -/
def Wscen1 : Scenario :=
  ⟨some "w1", "headway", none, [WtrainA, WtrainB], [], [], none, 0⟩

/-- The schedule the sequencer produces for `Wscen1`: A runs 0→300s, B is
shifted to 600s by the 5-minute headway after A's 300s exit. -/
def Wsched1 : Schedule :=
  ⟨some "w1",
    [⟨"A", "S1", 0, 300, none⟩, ⟨"B", "S1", 600, 900, none⟩],
    ⟨0, 2⟩, 0⟩

/-- `Wsched1` as produced at wall clock 1 instead of 0. -/
def Wsched1b : Schedule :=
  ⟨some "w1",
    [⟨"A", "S1", 0, 300, none⟩, ⟨"B", "S1", 600, 900, none⟩],
    ⟨0, 2⟩, 1⟩

/-- One train riding two sections, no overrides. -/
def WtrainT : Train :=
  ⟨"T", .passenger, 5, none, none, "O", "D", 0, none, ["S1", "S2"], .scheduled⟩

def Wscen2 : Scenario :=
  ⟨some "w2", "two-legs", none, [WtrainT], [], [], none, 0⟩

/-- The schedule produced for `Wscen2`: T traverses S1 during 0–300s and S2
during 300–840s (run time 9 minutes). -/
def Wsched2 : Schedule :=
  ⟨some "w2",
    [⟨"T", "S1", 0, 300, none⟩, ⟨"T", "S2", 300, 840, none⟩],
    ⟨0, 1⟩, 0⟩

/-- Placeholder leg used as the default of `List.getD` in concrete
statements about leg sequences. -/
def dummyLeg : ScheduleLeg := ⟨"", "", 0, 0, none⟩

/-- A route referencing section S9, absent from the directory. -/
def WtrainU : Train :=
  ⟨"U", .passenger, 5, none, none, "O", "D", 0, none, ["S1", "S9"], .scheduled⟩

def Wscen6 : Scenario :=
  ⟨some "w6", "unknown-section", none, [WtrainU], [], [], none, 0⟩

/-- A train whose route is the empty sequence, next to a normal train. -/
def WtrainE : Train :=
  ⟨"E", .passenger, 9, none, none, "O", "D", 0, none, [], .scheduled⟩

def Wscen10 : Scenario :=
  ⟨some "w10", "empty-route", none, [WtrainE, WtrainA], [], [], none, 0⟩

/-- What-if request: delay train B of `Wscen1` by 15 minutes. -/
def Wreq8 : WhatIfRequest := ⟨Wscen1, "B", 15⟩

/-- Counterexample input for C3: train T departs at 1000s but an override
fixes its enter time on its second section S2 to instant 0, far before its
exit from S1. -/
def CEtrain3 : Train :=
  ⟨"T", .passenger, 5, none, none, "O", "D", 1000, none, ["S1", "S2"],
    .scheduled⟩

def CEover3 : FixedEnterEntry := ⟨some "T", some "S2", some (some 0)⟩

def CEscen3 : Scenario :=
  ⟨some "ce3", "early-override", none, [CEtrain3], [], [CEover3], none, 0⟩

/-- The schedule produced for `CEscen3`: the second leg enters at 0, before
the first leg's exit at 1300. -/
def CEsched3 : Schedule :=
  ⟨some "ce3",
    [⟨"T", "S1", 1000, 1300, none⟩, ⟨"T", "S2", 0, 540, none⟩],
    ⟨0, 1⟩, 0⟩

/-- Counterexample input for C4: a train whose `max_speed_kmh` is set to the
float `0.0` (falsy in Python, so the code falls back to the section speed). -/
def CEsec4 : Section := ⟨"S1", "Flat", 10, true, 60, []⟩

def CEtrain4 : Train :=
  ⟨"Z", .passenger, 5, none, some 0, "O", "D", 0, none, ["S1"], .scheduled⟩

/-- Counterexample input for C2: a malformed entry (missing `train_id`)
followed by a well-formed entry. -/
def CEbad2 : FixedEnterEntry := ⟨none, some "S1", some (some 50)⟩

def CEgood2 : FixedEnterEntry := ⟨some "T1", some "S1", some (some 100)⟩

/-! Basic facts about the building blocks of the sequencer. -/

theorem updateFn_same {α : Type} (m : String → Option α) (k : String)
    (v : α) : updateFn m k v k = some v := by
  simp [updateFn]

theorem updateFn_ne {α : Type} (m : String → Option α) (k : String) (v : α)
    (k' : String) (h : k' ≠ k) : updateFn m k v k' = m k' := by
  simp [updateFn, h]

theorem one_le_compute_run_time (sec : Section) (tr : Train) :
    1 ≤ compute_run_time_minutes sec tr :=
  le_max_left _ _

theorem le_headwayEnter (sec : Section) (last_exit : String → Option ℤ)
    (sec_id : String) (cand : ℤ) :
    cand ≤ headwayEnter sec last_exit sec_id cand := by
  unfold headwayEnter
  cases sec.single_track with
  | false => simp
  | true =>
    cases last_exit sec_id with
    | none => simp
    | some prev => simp only [Bool.true_eq]; split <;> omega

theorem headwayEnter_ge_prev (sec : Section) (last_exit : String → Option ℤ)
    (sec_id : String) (cand prev : ℤ) (hst : sec.single_track = true)
    (hp : last_exit sec_id = some prev) :
    prev + 60 * SAFE_HEADWAY_MIN ≤ headwayEnter sec last_exit sec_id cand := by
  unfold headwayEnter
  rw [hst, hp]
  simp only [if_true]
  split <;> omega

theorem runRoute_ok_cons (smap : String → Option Section)
    (fixed : String → Option ℤ) (tr : Train) (le : String → Option ℤ)
    (cur : ℤ) (sid : String) (rest : List String) (ls : List ScheduleLeg)
    (le2 : String → Option ℤ) (cur2 : ℤ)
    (h : runRoute smap fixed tr le cur (sid :: rest) = .ok (ls, le2, cur2)) :
    ∃ sec ls1, smap sid = some sec ∧
      ls = (⟨tr.id, sid,
          headwayEnter sec le sid (candidateEnter fixed tr.id sid cur),
          headwayEnter sec le sid (candidateEnter fixed tr.id sid cur)
            + 60 * compute_run_time_minutes sec tr, none⟩ : ScheduleLeg) :: ls1 ∧
      runRoute smap fixed tr
        (updateFn le sid
          (headwayEnter sec le sid (candidateEnter fixed tr.id sid cur)
            + 60 * compute_run_time_minutes sec tr))
        (headwayEnter sec le sid (candidateEnter fixed tr.id sid cur)
          + 60 * compute_run_time_minutes sec tr) rest
        = .ok (ls1, le2, cur2) := by
  simp only [runRoute] at h
  split at h
  · simp at h
  · rename_i sec hs
    split at h
    · simp at h
    · rename_i ls1 le1 cur1 hrec
      refine ⟨sec, ls1, hs, ?_, ?_⟩
      · simp only [Except.ok.injEq, Prod.mk.injEq] at h
        exact h.1.symm
      · simp only [Except.ok.injEq, Prod.mk.injEq] at h
        rw [hrec, h.2.1, h.2.2]

theorem runRoute_nil_inv (smap : String → Option Section)
    (fixed : String → Option ℤ) (tr : Train) (le : String → Option ℤ)
    (cur : ℤ) (ls : List ScheduleLeg) (le2 : String → Option ℤ) (cur2 : ℤ)
    (h : runRoute smap fixed tr le cur [] = .ok (ls, le2, cur2)) :
    ls = [] ∧ le2 = le ∧ cur2 = cur := by
  simp only [runRoute, Except.ok.injEq, Prod.mk.injEq] at h
  exact ⟨h.1.symm, h.2.1.symm, h.2.2.symm⟩

theorem runRoute_ok_props (smap : String → Option Section)
    (fixed : String → Option ℤ) (tr : Train) :
    ∀ (route : List String) (le : String → Option ℤ) (cur : ℤ)
      (ls : List ScheduleLeg) (le2 : String → Option ℤ) (cur2 : ℤ),
    runRoute smap fixed tr le cur route = .ok (ls, le2, cur2) →
    ls.map (fun l => l.section_id) = route ∧
    (∀ l ∈ ls, l.train_id = tr.id) ∧
    List.Chain' (fun a c => fixed (legKey tr.id c.section_id) = none →
      a.exit_time ≤ c.enter_time) ls ∧
    (∀ l0, ls.head? = some l0 →
      fixed (legKey tr.id l0.section_id) = none → cur ≤ l0.enter_time)
  | [], le, cur, ls, le2, cur2 => by
    intro h
    obtain ⟨h1, _, _⟩ := runRoute_nil_inv smap fixed tr le cur ls le2 cur2 h
    subst h1
    simp
  | sid :: rest, le, cur, ls, le2, cur2 => by
    intro h
    obtain ⟨sec, ls1, hs, hls, hrec⟩ :=
      runRoute_ok_cons smap fixed tr le cur sid rest ls le2 cur2 h
    obtain ⟨ihmap, ihids, ihchain, ihhead⟩ :=
      runRoute_ok_props smap fixed tr rest _ _ ls1 le2 cur2 hrec
    subst hls
    refine ⟨by simpa using ihmap, ?_, ?_, ?_⟩
    · intro l hl
      rcases List.mem_cons.mp hl with h1 | h1
      · rw [h1]
      · exact ihids l h1
    · rw [List.chain'_cons']
      refine ⟨?_, ihchain⟩
      intro y hy hfix
      exact ihhead y hy hfix
    · intro l0 hl0 hfix
      simp only [List.head?_cons, Option.some.injEq] at hl0
      subst hl0
      show cur ≤ headwayEnter sec le sid (candidateEnter fixed tr.id sid cur)
      have hcand : candidateEnter fixed tr.id sid cur = cur := by
        simp [candidateEnter, hfix]
      calc cur = candidateEnter fixed tr.id sid cur := hcand.symm
        _ ≤ _ := le_headwayEnter sec le sid _

theorem runRoute_ok_known (smap : String → Option Section)
    (fixed : String → Option ℤ) (tr : Train) :
    ∀ (route : List String) (le : String → Option ℤ) (cur : ℤ)
      (ls : List ScheduleLeg) (le2 : String → Option ℤ) (cur2 : ℤ),
    runRoute smap fixed tr le cur route = .ok (ls, le2, cur2) →
    ∀ sid ∈ route, ∃ sec, smap sid = some sec
  | [], _, _, _, _, _ => by intro _ sid hsid; simp at hsid
  | sid0 :: rest, le, cur, ls, le2, cur2 => by
    intro h sid hsid
    obtain ⟨sec, ls1, hs, _, hrec⟩ :=
      runRoute_ok_cons smap fixed tr le cur sid0 rest ls le2 cur2 h
    rcases List.mem_cons.mp hsid with h1 | h1
    · exact ⟨sec, h1 ▸ hs⟩
    · exact runRoute_ok_known smap fixed tr rest _ _ ls1 le2 cur2 hrec sid h1

theorem runRoute_error_inv (smap : String → Option Section)
    (fixed : String → Option ℤ) (tr : Train) :
    ∀ (route : List String) (le : String → Option ℤ) (cur : ℤ) (e : String),
    runRoute smap fixed tr le cur route = .error e →
    ∃ sid ∈ route, smap sid = none ∧ e = "Unknown section " ++ sid
  | [], le, cur, e => by intro h; simp [runRoute] at h
  | sid0 :: rest, le, cur, e => by
    intro h
    simp only [runRoute] at h
    split at h
    · rename_i hs
      refine ⟨sid0, List.mem_cons_self _ _, hs, ?_⟩
      simp only [Except.error.injEq] at h
      exact h.symm
    · rename_i sec hs
      split at h
      · rename_i e1 hrec
        simp only [Except.error.injEq] at h
        subst h
        obtain ⟨sid, hmem, hnone, he⟩ :=
          runRoute_error_inv smap fixed tr rest _ _ e1 hrec
        exact ⟨sid, List.mem_cons_of_mem _ hmem, hnone, he⟩
      · simp at h

theorem runRoute_headway (smap : String → Option Section)
    (fixed : String → Option ℤ) (tr : Train) :
    ∀ (route : List String) (le : String → Option ℤ) (cur : ℤ)
      (ls : List ScheduleLeg) (le2 : String → Option ℤ) (cur2 : ℤ),
    runRoute smap fixed tr le cur route = .ok (ls, le2, cur2) →
    ∀ acc : List ScheduleLeg, headwayOK smap acc → exitsBelow smap acc le →
    headwayOK smap (acc ++ ls) ∧ exitsBelow smap (acc ++ ls) le2
  | [], le, cur, ls, le2, cur2 => by
    intro h acc hOK hbelow
    obtain ⟨h1, h2, _⟩ := runRoute_nil_inv smap fixed tr le cur ls le2 cur2 h
    subst h1; subst h2
    simpa using ⟨hOK, hbelow⟩
  | sid :: rest, le, cur, ls, le2, cur2 => by
    intro h acc hOK hbelow
    obtain ⟨sec, ls1, hs, hls, hrec⟩ :=
      runRoute_ok_cons smap fixed tr le cur sid rest ls le2 cur2 h
    subst hls
    set cand := candidateEnter fixed tr.id sid cur with hcand
    set enter := headwayEnter sec le sid cand with henter
    set ex := enter + 60 * compute_run_time_minutes sec tr with hex
    set nl : ScheduleLeg := ⟨tr.id, sid, enter, ex, none⟩ with hnl
    have hrun : 1 ≤ compute_run_time_minutes sec tr :=
      one_le_compute_run_time sec tr
    have hA : headwayOK smap (acc ++ [nl]) := by
      rw [headwayOK, List.pairwise_append]
      refine ⟨hOK, by simp, ?_⟩
      intro a ha b hb
      simp only [List.mem_singleton] at hb
      subst hb
      intro sec_a hsa hsingle hsame
      have hsec_id : a.section_id = sid := hsame.symm
      rw [hsec_id] at hsa
      rw [hs] at hsa
      injection hsa with hsa
      subst hsa
      obtain ⟨e, hle, hexit⟩ := hbelow a ha sec (by rw [hsec_id]; exact hs)
        hsingle
      rw [hsec_id] at hle
      have := headwayEnter_ge_prev sec le sid cand e hsingle hle
      show a.exit_time + 60 * SAFE_HEADWAY_MIN ≤ nl.enter_time
      simp only [hnl]
      show a.exit_time + 60 * SAFE_HEADWAY_MIN ≤ enter
      omega
    have hB : exitsBelow smap (acc ++ [nl]) (updateFn le sid ex) := by
      intro l hl sec_l hsl hsingle
      rcases List.mem_append.mp hl with hmem | hmem
      · obtain ⟨e, hle, hexit⟩ := hbelow l hmem sec_l hsl hsingle
        by_cases hsec_id : l.section_id = sid
        · rw [hsec_id] at hsl
          rw [hs] at hsl
          injection hsl with hsl
          subst hsl
          refine ⟨ex, by rw [hsec_id]; exact updateFn_same le sid ex, ?_⟩
          rw [hsec_id] at hle
          have := headwayEnter_ge_prev sec le sid cand e hsingle hle
          have h5 : (0:ℤ) < SAFE_HEADWAY_MIN := by decide
          omega
        · exact ⟨e, by rw [updateFn_ne le sid ex l.section_id hsec_id]; exact hle,
            hexit⟩
      · simp only [List.mem_singleton] at hmem
        subst hmem
        refine ⟨ex, ?_, ?_⟩
        · show updateFn le sid ex nl.section_id = some ex
          simp only [hnl]
          exact updateFn_same le sid ex
        · show nl.exit_time ≤ ex
          simp [hnl]
    have := runRoute_headway smap fixed tr rest _ _ ls1 le2 cur2 hrec
      (acc ++ [nl]) hA hB
    rwa [List.append_assoc, List.singleton_append] at this

theorem runTrains_nil_inv (smap : String → Option Section)
    (fixed : String → Option ℤ) (le : String → Option ℤ)
    (ls : List ScheduleLeg) (le2 : String → Option ℤ)
    (h : runTrains smap fixed [] le = .ok (ls, le2)) :
    ls = [] ∧ le2 = le := by
  simp only [runTrains, Except.ok.injEq, Prod.mk.injEq] at h
  exact ⟨h.1.symm, h.2.symm⟩

theorem runTrains_cons_inv (smap : String → Option Section)
    (fixed : String → Option ℤ) (tr : Train) (rest : List Train)
    (le : String → Option ℤ) (ls : List ScheduleLeg)
    (le2 : String → Option ℤ)
    (h : runTrains smap fixed (tr :: rest) le = .ok (ls, le2)) :
    ∃ b le1 cur1 ls2,
      runRoute smap fixed tr le tr.planned_departure tr.route
        = .ok (b, le1, cur1) ∧
      runTrains smap fixed rest le1 = .ok (ls2, le2) ∧
      ls = b ++ ls2 := by
  simp only [runTrains] at h
  split at h
  · simp at h
  · rename_i b le1 cur1 hroute
    split at h
    · simp at h
    · rename_i ls2 le2x htrains
      simp only [Except.ok.injEq, Prod.mk.injEq] at h
      exact ⟨b, le1, cur1, ls2, hroute, by rw [htrains, h.2], h.1.symm⟩

theorem runTrains_error_inv (smap : String → Option Section)
    (fixed : String → Option ℤ) :
    ∀ (ts : List Train) (le : String → Option ℤ) (e : String),
    runTrains smap fixed ts le = .error e →
    ∃ t ∈ ts, ∃ sid ∈ t.route, smap sid = none ∧
      e = "Unknown section " ++ sid
  | [], le, e => by intro h; simp [runTrains] at h
  | tr :: rest, le, e => by
    intro h
    simp only [runTrains] at h
    split at h
    · rename_i e1 hroute
      simp only [Except.error.injEq] at h
      subst h
      obtain ⟨sid, hmem, hnone, he⟩ :=
        runRoute_error_inv smap fixed tr tr.route le tr.planned_departure e1
          hroute
      exact ⟨tr, List.mem_cons_self _ _, sid, hmem, hnone, he⟩
    · rename_i b le1 cur1 hroute
      split at h
      · rename_i e1 htrains
        simp only [Except.error.injEq] at h
        subst h
        obtain ⟨t, hmem, sid, hsid, hnone, he⟩ :=
          runTrains_error_inv smap fixed rest le1 e1 htrains
        exact ⟨t, List.mem_cons_of_mem _ hmem, sid, hsid, hnone, he⟩
      · simp at h

theorem runTrains_ok_known (smap : String → Option Section)
    (fixed : String → Option ℤ) :
    ∀ (ts : List Train) (le : String → Option ℤ) (ls : List ScheduleLeg)
      (le2 : String → Option ℤ),
    runTrains smap fixed ts le = .ok (ls, le2) →
    ∀ t ∈ ts, ∀ sid ∈ t.route, ∃ sec, smap sid = some sec
  | [], _, _, _ => by intro _ t ht; simp at ht
  | tr :: rest, le, ls, le2 => by
    intro h t ht sid hsid
    obtain ⟨b, le1, cur1, ls2, hroute, htrains, _⟩ :=
      runTrains_cons_inv smap fixed tr rest le ls le2 h
    rcases List.mem_cons.mp ht with h1 | h1
    · subst h1
      exact runRoute_ok_known smap fixed t t.route le t.planned_departure b
        le1 cur1 hroute sid hsid
    · exact runTrains_ok_known smap fixed rest le1 ls2 le2 htrains t h1 sid
        hsid

theorem runTrains_ok_blocks (smap : String → Option Section)
    (fixed : String → Option ℤ) :
    ∀ (ts : List Train) (le : String → Option ℤ) (ls : List ScheduleLeg)
      (le2 : String → Option ℤ),
    runTrains smap fixed ts le = .ok (ls, le2) →
    ∃ blocks : List (List ScheduleLeg), ls = blocks.flatten ∧
      List.Forall₂ (fun b t => blockOK fixed t b) blocks ts
  | [], le, ls, le2 => by
    intro h
    obtain ⟨h1, _⟩ := runTrains_nil_inv smap fixed le ls le2 h
    subst h1
    exact ⟨[], by simp, List.Forall₂.nil⟩
  | tr :: rest, le, ls, le2 => by
    intro h
    obtain ⟨b, le1, cur1, ls2, hroute, htrains, hsum⟩ :=
      runTrains_cons_inv smap fixed tr rest le ls le2 h
    obtain ⟨hmap, hids, hchain, _⟩ :=
      runRoute_ok_props smap fixed tr tr.route le tr.planned_departure b le1
        cur1 hroute
    obtain ⟨blocks, hjoin, hforall⟩ :=
      runTrains_ok_blocks smap fixed rest le1 ls2 le2 htrains
    refine ⟨b :: blocks, ?_, ?_⟩
    · rw [hsum, hjoin]; simp
    · exact List.Forall₂.cons ⟨hmap, hids, hchain⟩ hforall

theorem runTrains_headway (smap : String → Option Section)
    (fixed : String → Option ℤ) :
    ∀ (ts : List Train) (le : String → Option ℤ) (ls : List ScheduleLeg)
      (le2 : String → Option ℤ),
    runTrains smap fixed ts le = .ok (ls, le2) →
    ∀ acc : List ScheduleLeg, headwayOK smap acc → exitsBelow smap acc le →
    headwayOK smap (acc ++ ls) ∧ exitsBelow smap (acc ++ ls) le2
  | [], le, ls, le2 => by
    intro h acc hOK hbelow
    obtain ⟨h1, h2⟩ := runTrains_nil_inv smap fixed le ls le2 h
    subst h1; subst h2
    simpa using ⟨hOK, hbelow⟩
  | tr :: rest, le, ls, le2 => by
    intro h acc hOK hbelow
    obtain ⟨b, le1, cur1, ls2, hroute, htrains, hsum⟩ :=
      runTrains_cons_inv smap fixed tr rest le ls le2 h
    obtain ⟨hOK1, hbelow1⟩ :=
      runRoute_headway smap fixed tr tr.route le tr.planned_departure b le1
        cur1 hroute acc hOK hbelow
    have := runTrains_headway smap fixed rest le1 ls2 le2 htrains (acc ++ b)
      hOK1 hbelow1
    rw [hsum, ← List.append_assoc]
    exact this

theorem runTrains_filter (smap : String → Option Section)
    (fixed : String → Option ℤ) :
    ∀ (ts : List Train) (le : String → Option ℤ) (ls : List ScheduleLeg)
      (le2 : String → Option ℤ),
    runTrains smap fixed ts le = .ok (ls, le2) →
    (ts.map (fun t => t.id)).Nodup →
    (∀ l ∈ ls, l.train_id ∈ ts.map (fun t => t.id)) ∧
    (∀ t ∈ ts,
      blockOK fixed t (ls.filter (fun l => decide (l.train_id = t.id))))
  | [], le, ls, le2 => by
    intro h _
    obtain ⟨h1, _⟩ := runTrains_nil_inv smap fixed le ls le2 h
    subst h1
    exact ⟨by simp, by simp⟩
  | tr :: rest, le, ls, le2 => by
    intro h hnodup
    obtain ⟨b, le1, cur1, ls2, hroute, htrains, hsum⟩ :=
      runTrains_cons_inv smap fixed tr rest le ls le2 h
    obtain ⟨hmap, hids, hchain, _⟩ :=
      runRoute_ok_props smap fixed tr tr.route le tr.planned_departure b le1
        cur1 hroute
    simp only [List.map_cons, List.nodup_cons] at hnodup
    obtain ⟨hnotin, hnodup2⟩ := hnodup
    obtain ⟨ih_mem, ih_blocks⟩ :=
      runTrains_filter smap fixed rest le1 ls2 le2 htrains hnodup2
    subst hsum
    constructor
    · intro l hl
      rcases List.mem_append.mp hl with hmem | hmem
      · rw [List.map_cons, hids l hmem]
        exact List.mem_cons_self _ _
      · rw [List.map_cons]
        exact List.mem_cons_of_mem _ (ih_mem l hmem)
    · intro t ht
      rcases List.mem_cons.mp ht with h1 | h1
      · subst h1
        have hfb : List.filter (fun l => decide (l.train_id = t.id)) b = b :=
          List.filter_eq_self.mpr (fun l hl => by
            simp [hids l hl])
        have hfls2 :
            List.filter (fun l => decide (l.train_id = t.id)) ls2 = [] :=
          List.filter_eq_nil_iff.mpr (fun l hl => by
            simp only [decide_eq_true_eq]
            intro hEq
            exact hnotin (hEq ▸ ih_mem l hl))
        rw [List.filter_append, hfb, hfls2, List.append_nil]
        exact ⟨hmap, hids, hchain⟩
      · have htid : t.id ≠ tr.id := by
          intro hEq
          exact hnotin (hEq ▸ List.mem_map_of_mem (fun t => t.id) h1)
        have hfb : List.filter (fun l => decide (l.train_id = t.id)) b = [] :=
          List.filter_eq_nil_iff.mpr (fun l hl => by
            simp only [decide_eq_true_eq]
            intro hEq
            exact htid (hEq ▸ hids l hl))
        rw [List.filter_append, hfb, List.nil_append]
        exact ih_blocks t h1

theorem generate_core_ok_inv (sections : List Section) (sc : Scenario)
    (legs : List ScheduleLeg) (obj : Objective)
    (h : generate_core sections sc = .ok (legs, obj)) :
    ∃ le2, runTrains (dictOf sections) (parse_fixed_overrides sc.overrides)
        (trains_sorted sc.trains) (fun _ => none) = .ok (legs, le2) ∧
      obj = ⟨0, (finished_trains sc.trains legs).length⟩ := by
  simp only [generate_core] at h
  split at h
  · simp at h
  · rename_i legs0 le2 hrun
    simp only [Except.ok.injEq, Prod.mk.injEq] at h
    obtain ⟨h1, h2⟩ := h
    subst h1
    exact ⟨le2, hrun, h2.symm⟩

theorem generate_ok_inv (sections : List Section) (sc : Scenario) (now : ℤ)
    (sched : Schedule)
    (h : generate_feasible_schedule sections sc now = .ok sched) :
    generate_core sections sc = .ok (sched.legs, sched.objective) ∧
    sched.scenario_id = sc.id ∧ sched.created_at = now := by
  simp only [generate_feasible_schedule] at h
  cases hc : generate_core sections sc with
  | error e => rw [hc] at h; simp [Except.map] at h
  | ok p =>
    rw [hc] at h
    simp only [Except.map, Except.ok.injEq] at h
    subst h
    exact ⟨rfl, rfl, rfl⟩

theorem generate_error_inv (sections : List Section) (sc : Scenario)
    (now : ℤ) (e : String)
    (h : generate_feasible_schedule sections sc now = .error e) :
    generate_core sections sc = .error e := by
  simp only [generate_feasible_schedule] at h
  cases hc : generate_core sections sc with
  | error e1 => rw [hc] at h; simp only [Except.map, Except.error.injEq] at h; rw [h]
  | ok p => rw [hc] at h; simp [Except.map] at h

theorem generate_core_error_inv (sections : List Section) (sc : Scenario)
    (e : String) (h : generate_core sections sc = .error e) :
    runTrains (dictOf sections) (parse_fixed_overrides sc.overrides)
      (trains_sorted sc.trains) (fun _ => none) = .error e := by
  simp only [generate_core] at h
  split at h
  · rename_i e1 hrun
    simp only [Except.error.injEq] at h
    rw [hrun, h]
  · simp at h

theorem trains_sorted_perm (ts : List Train) :
    (trains_sorted ts).Perm ts := by
  unfold trains_sorted
  exact List.perm_insertionSort commitLE ts

theorem trains_sorted_sorted (ts : List Train) :
    List.Sorted commitLE (trains_sorted ts) := by
  unfold trains_sorted
  exact List.sorted_insertionSort commitLE ts

/-- C1: for every scenario scheduled without error, any two emitted legs on
the same section, if the directory marks it single-track, are separated by
the full 5-minute headway after the earlier leg's exit — unconditionally,
which is stronger than the claim (the claim's escape clause for unshifted
candidates never actually weakens the bound). -/
theorem single_track_headway (sections : List Section) (sc : Scenario)
    (now : ℤ) (sched : Schedule)
    (h : generate_feasible_schedule sections sc now = .ok sched)
    (i j : Fin sched.legs.length) (hij : i < j) (sec : Section)
    (hsec : dictOf sections (sched.legs.get i).section_id = some sec)
    (hst : sec.single_track = true)
    (hsame : (sched.legs.get j).section_id = (sched.legs.get i).section_id) :
    (sched.legs.get i).exit_time + 60 * SAFE_HEADWAY_MIN ≤
      (sched.legs.get j).enter_time := by
  obtain ⟨hcore, _, _⟩ := generate_ok_inv sections sc now sched h
  obtain ⟨le2, hrun, _⟩ :=
    generate_core_ok_inv sections sc sched.legs sched.objective hcore
  have hOK : headwayOK (dictOf sections) sched.legs := by
    have := runTrains_headway (dictOf sections)
      (parse_fixed_overrides sc.overrides) (trains_sorted sc.trains)
      (fun _ => none) sched.legs le2 hrun []
      List.Pairwise.nil (fun l hl => absurd hl (List.not_mem_nil l))
    simpa using this.1
  exact (List.pairwise_iff_get.mp hOK) i j hij sec hsec hst hsame

/-- Witness for C1: in `Wscen1` both trains use single-track S1; B enters at
600, exactly 5 minutes after A's exit at 300. -/
theorem single_track_headway_witness :
    (Wsched1.legs.get ⟨0, by with_unfolding_all decide⟩).exit_time
        + 60 * SAFE_HEADWAY_MIN ≤
      (Wsched1.legs.get ⟨1, by with_unfolding_all decide⟩).enter_time :=
  single_track_headway [Wsec1, Wsec2] Wscen1 0 Wsched1
    (by with_unfolding_all rfl)
    ⟨0, by with_unfolding_all decide⟩ ⟨1, by with_unfolding_all decide⟩
    (by decide) Wsec1 (by with_unfolding_all decide) (by decide)
    (by with_unfolding_all decide)

/-- C5: the sequencer commits trains in the fixed order sorted by priority
descending then planned departure ascending, and the emitted leg sequence is
the concatenation of one contiguous block per train in that order. -/
theorem commitment_order (sections : List Section) (sc : Scenario) (now : ℤ)
    (sched : Schedule)
    (h : generate_feasible_schedule sections sc now = .ok sched) :
    List.Sorted commitLE (trains_sorted sc.trains) ∧
    (trains_sorted sc.trains).Perm sc.trains ∧
    ∃ blocks : List (List ScheduleLeg),
      sched.legs = blocks.flatten ∧
      List.Forall₂ (fun b t => ∀ l ∈ b, l.train_id = t.id) blocks
        (trains_sorted sc.trains) := by
  obtain ⟨hcore, _, _⟩ := generate_ok_inv sections sc now sched h
  obtain ⟨le2, hrun, _⟩ :=
    generate_core_ok_inv sections sc sched.legs sched.objective hcore
  obtain ⟨blocks, hflat, hforall⟩ :=
    runTrains_ok_blocks (dictOf sections) (parse_fixed_overrides sc.overrides)
      (trains_sorted sc.trains) (fun _ => none) sched.legs le2 hrun
  refine ⟨trains_sorted_sorted sc.trains, trains_sorted_perm sc.trains,
    blocks, hflat, ?_⟩
  exact hforall.imp (fun {b t} hb => hb.2.1)

/-- Witness for C5 at the concrete scenario `Wscen1`. -/
theorem commitment_order_witness :
    List.Sorted commitLE (trains_sorted Wscen1.trains) ∧
    (trains_sorted Wscen1.trains).Perm Wscen1.trains ∧
    ∃ blocks : List (List ScheduleLeg),
      Wsched1.legs = blocks.flatten ∧
      List.Forall₂ (fun b t => ∀ l ∈ b, l.train_id = t.id) blocks
        (trains_sorted Wscen1.trains) :=
  commitment_order [Wsec1, Wsec2] Wscen1 0 Wsched1 (by with_unfolding_all rfl)

/-- C6: if any train's route references a section id absent from the
directory, the whole request fails with the Unknown-Section error naming
such a section; the `Except.error` result carries no legs for any train. -/
theorem unknown_section_aborts (sections : List Section) (sc : Scenario)
    (now : ℤ)
    (h : ∃ t ∈ sc.trains, ∃ sid ∈ t.route, dictOf sections sid = none) :
    ∃ sid, dictOf sections sid = none ∧ (∃ t ∈ sc.trains, sid ∈ t.route) ∧
      generate_feasible_schedule sections sc now =
        .error ("Unknown section " ++ sid) := by
  obtain ⟨t, ht, sid0, hsid0, hnone0⟩ := h
  cases hg : generate_feasible_schedule sections sc now with
  | ok sched =>
    exfalso
    obtain ⟨hcore, _, _⟩ := generate_ok_inv sections sc now sched hg
    obtain ⟨le2, hrun, _⟩ :=
      generate_core_ok_inv sections sc sched.legs sched.objective hcore
    have ht' : t ∈ trains_sorted sc.trains :=
      (trains_sorted_perm sc.trains).mem_iff.mpr ht
    obtain ⟨sec, hsec⟩ := runTrains_ok_known (dictOf sections)
      (parse_fixed_overrides sc.overrides) (trains_sorted sc.trains)
      (fun _ => none) sched.legs le2 hrun t ht' sid0 hsid0
    rw [hnone0] at hsec
    exact Option.noConfusion hsec
  | error e =>
    have hrun := generate_core_error_inv sections sc e
      (generate_error_inv sections sc now e hg)
    obtain ⟨t1, ht1, sid, hsid, hnone, he⟩ :=
      runTrains_error_inv (dictOf sections)
        (parse_fixed_overrides sc.overrides) (trains_sorted sc.trains)
        (fun _ => none) e hrun
    have ht1' : t1 ∈ sc.trains := (trains_sorted_perm sc.trains).mem_iff.mp ht1
    exact ⟨sid, hnone, ⟨t1, ht1', hsid⟩, by rw [he]⟩

/-- Witness for C6: `Wscen6` routes train U over S9, absent from the
directory that only holds S1. -/
theorem unknown_section_aborts_witness :
    ∃ sid, dictOf [Wsec1] sid = none ∧
      (∃ t ∈ Wscen6.trains, sid ∈ t.route) ∧
      generate_feasible_schedule [Wsec1] Wscen6 0 =
        .error ("Unknown section " ++ sid) :=
  unknown_section_aborts [Wsec1] Wscen6 0
    ⟨WtrainU, by with_unfolding_all decide, "S9", by decide,
      by with_unfolding_all decide⟩

/-- C7 (amended): two runs on the same scenario, directory and overrides
agree on scenario id, leg sequence and objective map; `created_at` records
each run's wall clock and is the one field that may differ. -/
theorem rerun_equal_up_to_created_at (sections : List Section)
    (sc : Scenario) (n1 n2 : ℤ) (s1 s2 : Schedule)
    (h1 : generate_feasible_schedule sections sc n1 = .ok s1)
    (h2 : generate_feasible_schedule sections sc n2 = .ok s2) :
    s1.scenario_id = s2.scenario_id ∧ s1.legs = s2.legs ∧
    s1.objective = s2.objective ∧ s1.created_at = n1 ∧ s2.created_at = n2 := by
  obtain ⟨hc1, hid1, hca1⟩ := generate_ok_inv sections sc n1 s1 h1
  obtain ⟨hc2, hid2, hca2⟩ := generate_ok_inv sections sc n2 s2 h2
  rw [hc1] at hc2
  simp only [Except.ok.injEq, Prod.mk.injEq] at hc2
  exact ⟨by rw [hid1, hid2], hc2.1, hc2.2, hca1, hca2⟩

/-- Witness for C7 (amended), at `Wscen1` with wall clocks 0 and 1. -/
theorem rerun_equal_up_to_created_at_witness :
    Wsched1.scenario_id = Wsched1b.scenario_id ∧
    Wsched1.legs = Wsched1b.legs ∧ Wsched1.objective = Wsched1b.objective ∧
    Wsched1.created_at = 0 ∧ Wsched1b.created_at = 1 :=
  rerun_equal_up_to_created_at [Wsec1, Wsec2] Wscen1 0 1 Wsched1 Wsched1b
    (by with_unfolding_all rfl) (by with_unfolding_all rfl)

/-- Counterexample to C7 as stated: the same scenario scheduled at two
different wall-clock instants yields schedules that are not identical —
their `created_at` fields differ (0 versus 1) even though everything else
matches. -/
theorem rerun_not_identical :
    generate_feasible_schedule [Wsec1, Wsec2] Wscen1 0 ≠
      generate_feasible_schedule [Wsec1, Wsec2] Wscen1 1 ∧
    (generate_feasible_schedule [Wsec1, Wsec2] Wscen1 0).map
        (fun s => s.created_at) = .ok 0 ∧
    (generate_feasible_schedule [Wsec1, Wsec2] Wscen1 1).map
        (fun s => s.created_at) = .ok 1 := by
  with_unfolding_all decide

theorem generate_filter_block (sections : List Section) (sc : Scenario)
    (now : ℤ) (sched : Schedule)
    (h : generate_feasible_schedule sections sc now = .ok sched)
    (hids : (sc.trains.map (fun t => t.id)).Nodup)
    (t : Train) (ht : t ∈ sc.trains) :
    blockOK (parse_fixed_overrides sc.overrides) t
      (sched.legs.filter (fun l => decide (l.train_id = t.id))) := by
  obtain ⟨hcore, _, _⟩ := generate_ok_inv sections sc now sched h
  obtain ⟨le2, hrun, _⟩ :=
    generate_core_ok_inv sections sc sched.legs sched.objective hcore
  have hnodup2 : ((trains_sorted sc.trains).map (fun t => t.id)).Nodup := by
    have hp := (trains_sorted_perm sc.trains).map (fun t => t.id)
    exact hp.nodup_iff.mpr hids
  have ht' : t ∈ trains_sorted sc.trains :=
    (trains_sorted_perm sc.trains).mem_iff.mpr ht
  exact (runTrains_filter (dictOf sections)
    (parse_fixed_overrides sc.overrides) (trains_sorted sc.trains)
    (fun _ => none) sched.legs le2 hrun hnodup2).2 t ht'

/-- C3 (amended): for every scheduled scenario with distinct train ids, the
legs emitted for one train, taken consecutively, satisfy
`l2.enter_time ≥ l1.exit_time` whenever no fixed-enter override supplies
`l2`'s candidate enter time (the unamended claim fails: an override earlier
than `l1.exit_time` produces `l2.enter_time < l1.exit_time`). -/
theorem consecutive_legs_no_override (sections : List Section)
    (sc : Scenario) (now : ℤ) (sched : Schedule)
    (h : generate_feasible_schedule sections sc now = .ok sched)
    (hids : (sc.trains.map (fun t => t.id)).Nodup)
    (t : Train) (ht : t ∈ sc.trains) :
    List.Chain'
      (fun a b =>
        parse_fixed_overrides sc.overrides (legKey t.id b.section_id)
          = none → a.exit_time ≤ b.enter_time)
      (sched.legs.filter (fun l => decide (l.train_id = t.id))) :=
  (generate_filter_block sections sc now sched h hids t ht).2.2

/-- Witness for C3 (amended): train T of `Wscen2` rides S1 then S2 with no
overrides; its second leg starts exactly at the first leg's exit. -/
theorem consecutive_legs_no_override_witness :
    List.Chain'
      (fun a b =>
        parse_fixed_overrides Wscen2.overrides (legKey WtrainT.id b.section_id)
          = none → a.exit_time ≤ b.enter_time)
      (Wsched2.legs.filter (fun l => decide (l.train_id = WtrainT.id))) :=
  consecutive_legs_no_override [Wsec1, Wsec2] Wscen2 0 Wsched2
    (by with_unfolding_all rfl) (by with_unfolding_all decide) WtrainT
    (by with_unfolding_all decide)

/-- Counterexample to C3 as stated: in `CEscen3` the override fixes train
T's enter time on its second section to instant 0, so the second leg enters
(at 0) strictly before the first leg's exit (at 1300), although the scenario
schedules without error. -/
theorem override_breaks_consecutive_legs :
    generate_feasible_schedule [Wsec1, Wsec2] CEscen3 0 = .ok CEsched3 ∧
    CEsched3.legs.map (fun l => l.train_id) = ["T", "T"] ∧
    CEsched3.legs.map (fun l => l.section_id) = CEtrain3.route ∧
    (CEsched3.legs.getD 1 dummyLeg).enter_time <
      (CEsched3.legs.getD 0 dummyLeg).exit_time := by
  with_unfolding_all decide

theorem applyDelayGo_split (x : String) (d : ℤ) :
    ∀ (pre : List Train) (t : Train) (post : List Train),
    t.id = x → (∀ u ∈ pre, u.id ≠ x) →
    applyDelayGo x d (pre ++ t :: post) =
      pre ++ { t with planned_departure :=
        t.planned_departure + 60 * d } :: post
  | [], t, post => by
    intro ht _
    simp [applyDelayGo, ht]
  | u :: pre, t, post => by
    intro ht hpre
    have hu : u.id ≠ x := hpre u (List.mem_cons_self _ _)
    simp only [List.cons_append, applyDelayGo, if_neg hu]
    exact congrArg (fun l => u :: l)
      (applyDelayGo_split x d pre t post ht
        (fun v hv => hpre v (List.mem_cons_of_mem _ hv)))

/-- C8: the what-if operation with a nonempty `delay_train_id` shifts only
the planned departure of the (first) train with that id, by exactly
`delay_minutes` minutes, before scheduling; every other field of that train,
every other train, and every other scenario field are unchanged. -/
theorem what_if_frame (req : WhatIfRequest)
    (hX : req.delay_train_id ≠ "")
    (pre post : List Train) (t : Train)
    (hsplit : req.scenario.trains = pre ++ t :: post)
    (ht : t.id = req.delay_train_id)
    (hpre : ∀ u ∈ pre, u.id ≠ req.delay_train_id) :
    (whatIfScenario req).trains =
      pre ++ { t with planned_departure :=
        t.planned_departure + 60 * req.delay_minutes } :: post ∧
    (whatIfScenario req).id = req.scenario.id ∧
    (whatIfScenario req).name = req.scenario.name ∧
    (whatIfScenario req).description = req.scenario.description ∧
    (whatIfScenario req).incidents = req.scenario.incidents ∧
    (whatIfScenario req).overrides = req.scenario.overrides ∧
    (whatIfScenario req).created_by = req.scenario.created_by ∧
    (whatIfScenario req).created_at = req.scenario.created_at := by
  refine ⟨?_, rfl, rfl, rfl, rfl, rfl, rfl, rfl⟩
  show applyDelay req.scenario.trains req.delay_train_id req.delay_minutes = _
  by_cases hd : req.delay_minutes = 0
  · rw [hd]
    unfold applyDelay
    rw [if_neg (by simp [hd])]
    rw [hsplit]
    simp only [mul_zero, add_zero]
  · unfold applyDelay
    rw [if_pos ⟨hX, hd⟩, hsplit]
    exact applyDelayGo_split req.delay_train_id req.delay_minutes pre t post
      ht hpre

/-- Witness for C8: delaying train B of `Wscen1` by 15 minutes. -/
theorem what_if_frame_witness :
    (whatIfScenario Wreq8).trains =
      [WtrainA] ++ { WtrainB with planned_departure :=
        WtrainB.planned_departure + 60 * Wreq8.delay_minutes } :: [] ∧
    (whatIfScenario Wreq8).id = Wreq8.scenario.id ∧
    (whatIfScenario Wreq8).name = Wreq8.scenario.name ∧
    (whatIfScenario Wreq8).description = Wreq8.scenario.description ∧
    (whatIfScenario Wreq8).incidents = Wreq8.scenario.incidents ∧
    (whatIfScenario Wreq8).overrides = Wreq8.scenario.overrides ∧
    (whatIfScenario Wreq8).created_by = Wreq8.scenario.created_by ∧
    (whatIfScenario Wreq8).created_at = Wreq8.scenario.created_at :=
  what_if_frame Wreq8 (by decide) [WtrainA] [] WtrainB
    (by with_unfolding_all rfl) (by decide)
    (by intro u hu; simp only [List.mem_singleton] at hu; subst hu; decide)

/-- C4 (amended): the run-time estimator is total and equals
`max(1, floor((length / max(effective_speed, 1)) * 60))` where the effective
speed falls back to the section speed when the train speed is unset OR set
to zero (Python falsiness), and its output is always at least 1 minute. -/
theorem compute_run_time_formula (sec : Section) (tr : Train)
    (hlen : 0 ≤ sec.length_km) (hspd : 10 ≤ sec.max_speed_kmh) :
    compute_run_time_minutes sec tr =
      max 1 ⌊(sec.length_km / max (min sec.max_speed_kmh
        (match tr.max_speed_kmh with
          | none => sec.max_speed_kmh
          | some v => if v = 0 then sec.max_speed_kmh else v)) 1) * 60⌋ ∧
    1 ≤ compute_run_time_minutes sec tr := by
  have key : ∀ q : ℚ, 0 ≤ q → ratTrunc q = ⌊q⌋ := by
    intro q hq
    unfold ratTrunc
    rw [if_neg (not_lt.mpr hq)]
  have h1 : (0:ℚ) < max (min sec.max_speed_kmh
      (match tr.max_speed_kmh with
        | none => sec.max_speed_kmh
        | some v => if v = 0 then sec.max_speed_kmh else v)) 1 :=
    lt_of_lt_of_le one_pos (le_max_right _ 1)
  have h2 : (0:ℚ) ≤ (sec.length_km / max (min sec.max_speed_kmh
      (match tr.max_speed_kmh with
        | none => sec.max_speed_kmh
        | some v => if v = 0 then sec.max_speed_kmh else v)) 1) * 60 :=
    mul_nonneg (div_nonneg hlen h1.le) (by norm_num)
  constructor
  · show max 1 (ratTrunc ((sec.length_km / max (min sec.max_speed_kmh
        (match tr.max_speed_kmh with
          | none => sec.max_speed_kmh
          | some v => if v = 0 then sec.max_speed_kmh else v)) 1) * 60)) = _
    rw [key _ h2]
  · exact le_max_left _ _

/-- Witness for C4 (amended) at section `Wsec1` and train `WtrainA`. -/
theorem compute_run_time_formula_witness :
    compute_run_time_minutes Wsec1 WtrainA =
      max 1 ⌊(Wsec1.length_km / max (min Wsec1.max_speed_kmh
        (match WtrainA.max_speed_kmh with
          | none => Wsec1.max_speed_kmh
          | some v => if v = 0 then Wsec1.max_speed_kmh else v)) 1) * 60⌋ ∧
    1 ≤ compute_run_time_minutes Wsec1 WtrainA :=
  compute_run_time_formula Wsec1 WtrainA (by with_unfolding_all decide)
    (by with_unfolding_all decide)

/-- Counterexample to C4 as stated: a train with `max_speed_kmh = 0.0` (a
set value) is falsy in Python, so the code uses the section speed (result
10 minutes over 10 km at 60 km/h), while the claim's formula
("train speed if set") clamps the effective speed at `max(0,1) = 1` and
yields 600 minutes. -/
theorem run_time_zero_speed_mismatch :
    (0:ℚ) ≤ CEsec4.length_km ∧ (10:ℚ) ≤ CEsec4.max_speed_kmh ∧
    compute_run_time_minutes CEsec4 CEtrain4 = 10 ∧
    spec_run_time_minutes CEsec4 CEtrain4 = 600 ∧
    compute_run_time_minutes CEsec4 CEtrain4 ≠
      spec_run_time_minutes CEsec4 CEtrain4 := by
  with_unfolding_all decide

/-- Counterexample to C2 as stated: `parse_fixed_overrides` wraps the whole
loop in one `try`, so the well-formed entry `CEgood2` coming after the
malformed `CEbad2` never reaches the lookup table. -/
theorem override_after_malformed_dropped :
    entryParse CEgood2 = some (legKey "T1" "S1", 100) ∧
    parse_fixed_overrides [CEbad2, CEgood2] (legKey "T1" "S1") = none := by
  with_unfolding_all decide

/-- C2 (amended): override parsing processes entries in order and stops at
the first malformed entry: the resulting lookup is exactly the fold of the
well-formed prefix (later entries of the prefix overwriting equal keys);
entries from the first malformed one onward are dropped. -/
theorem parseFixedGo_cons (init : String → Option ℤ)
    (e : FixedEnterEntry) (rest : List FixedEnterEntry) :
    parseFixedGo init (e :: rest) =
      match entryParse e with
      | some kv => parseFixedGo (updateFn init kv.1 kv.2) rest
      | none => init := rfl

theorem parseFixedGo_eq :
    ∀ (entries : List FixedEnterEntry) (init : String → Option ℤ),
    parseFixedGo init entries =
      (entries.takeWhile (fun e => (entryParse e).isSome)).foldl
        (fun m e =>
          match entryParse e with
          | some kv => updateFn m kv.1 kv.2
          | none => m)
        init
  | [], init => rfl
  | e :: rest, init => by
    cases hp : entryParse e with
    | some kv =>
      rw [List.takeWhile_cons, hp]
      simp only [Option.isSome_some, if_true, List.foldl_cons, hp]
      rw [parseFixedGo_cons, hp]
      exact parseFixedGo_eq rest (updateFn init kv.1 kv.2)
    | none =>
      rw [List.takeWhile_cons, hp]
      simp only [Option.isSome_none, Bool.false_eq_true, if_false,
        List.foldl_nil]
      rw [parseFixedGo_cons, hp]

theorem parse_overrides_prefix (entries : List FixedEnterEntry) :
    parse_fixed_overrides entries =
      (entries.takeWhile (fun e => (entryParse e).isSome)).foldl
        (fun m e =>
          match entryParse e with
          | some kv => updateFn m kv.1 kv.2
          | none => m)
        ((fun _ => none) : String → Option ℤ) :=
  parseFixedGo_eq entries ((fun _ => none) : String → Option ℤ)

theorem foldl_lastSections_ne :
    ∀ (ts : List Train) (m : String → Option (Option String)) (k : String),
    (∀ t ∈ ts, t.id ≠ k) →
    List.foldl (fun m t => updateFn m t.id t.route.getLast?) m ts k = m k
  | [], m, k => by intro _; rfl
  | t :: ts, m, k => by
    intro h
    simp only [List.foldl_cons]
    rw [foldl_lastSections_ne ts _ k
      (fun u hu => h u (List.mem_cons_of_mem _ hu))]
    exact updateFn_ne m t.id _ k
      (fun hk => h t (List.mem_cons_self _ _) hk.symm)

theorem lastSectionsMap_of_mem :
    ∀ (ts : List Train) (m : String → Option (Option String)) (t : Train),
    t ∈ ts → (ts.map (fun t => t.id)).Nodup →
    List.foldl (fun m t => updateFn m t.id t.route.getLast?) m ts t.id =
      some t.route.getLast?
  | [], m, t => by intro ht; exact absurd ht (List.not_mem_nil t)
  | t1 :: ts, m, t => by
    intro ht hnodup
    simp only [List.map_cons, List.nodup_cons] at hnodup
    rcases List.mem_cons.mp ht with h1 | h1
    · subst h1
      simp only [List.foldl_cons]
      rw [foldl_lastSections_ne ts _ t.id
        (fun u hu hEq => hnodup.1 (hEq ▸ List.mem_map_of_mem (fun t => t.id) hu))]
      exact updateFn_same m t.id _
    · simp only [List.foldl_cons]
      exact lastSectionsMap_of_mem ts _ t h1 hnodup.2

theorem lastSectionsMap_eq (trains : List Train) (t : Train)
    (ht : t ∈ trains) (hids : (trains.map (fun t => t.id)).Nodup) :
    lastSectionsMap trains t.id = some t.route.getLast? :=
  lastSectionsMap_of_mem trains (fun _ => none) t ht hids

theorem countP_eq_one_of_nodup :
    ∀ (l : List String) (a : String), l.Nodup → a ∈ l →
    List.countP (fun s => decide (s = a)) l = 1
  | [], a => by intro _ h; exact absurd h (List.not_mem_nil a)
  | s :: l, a => by
    intro hnodup hmem
    simp only [List.nodup_cons] at hnodup
    rw [List.countP_cons]
    rcases List.mem_cons.mp hmem with h1 | h1
    · subst h1
      have hz : List.countP (fun s => decide (s = a)) l = 0 :=
        List.countP_eq_zero.mpr (fun x hx => by
          simp only [decide_eq_true_eq]
          intro hEq
          exact hnodup.1 (hEq ▸ hx))
      rw [hz]
      simp
    · have hne : s ≠ a := fun hEq => hnodup.1 (hEq ▸ h1)
      rw [countP_eq_one_of_nodup l a hnodup.2 h1]
      simp [hne]

theorem block_finished_singleton (fixed : String → Option ℤ)
    (f : String → Option (Option String)) (t : Train)
    (b : List ScheduleLeg) (hb : blockOK fixed t b)
    (hf : f t.id = some t.route.getLast?) (hnodup : t.route.Nodup) :
    (b.filter
      (fun l => decide (f l.train_id = some (some l.section_id)))).map
        (fun l => l.train_id)
      = if t.route.isEmpty then [] else [t.id] := by
  obtain ⟨hmap, hids, _⟩ := hb
  by_cases hroute : t.route = []
  · rw [hroute] at hmap
    have hbnil : b = [] := List.map_eq_nil_iff.mp hmap
    rw [hbnil, hroute]
    simp
  · rw [if_neg (by simp [hroute])]
    have hlast : t.route.getLast? = some (t.route.getLast hroute) :=
      List.getLast?_eq_getLast_of_ne_nil hroute
    have hcongr : ∀ l ∈ b,
        (decide (f l.train_id = some (some l.section_id)))
          = (decide (l.section_id = t.route.getLast hroute)) := by
      intro l hl
      rw [hids l hl, hf, hlast]
      refine decide_eq_decide.mpr ?_
      constructor
      · intro hh
        injection hh with hh
        injection hh with hh
        exact hh.symm
      · intro hh
        rw [hh]
    rw [List.filter_congr hcongr]
    have hcount :
        (b.filter
          (fun l => decide (l.section_id = t.route.getLast hroute))).length
          = 1 := by
      rw [← List.countP_eq_length_filter]
      have h1 : List.countP
            (fun l => decide (l.section_id = t.route.getLast hroute)) b
          = List.countP (fun s => decide (s = t.route.getLast hroute))
              (b.map (fun l => l.section_id)) := by
        rw [List.countP_map]
        rfl
      rw [h1, hmap]
      exact countP_eq_one_of_nodup t.route (t.route.getLast hroute) hnodup
        (List.getLast_mem hroute)
    obtain ⟨l, hl⟩ := List.length_eq_one.mp hcount
    rw [hl]
    have hlmem : l ∈ b := by
      have hmem2 : l ∈ b.filter
          (fun l => decide (l.section_id = t.route.getLast hroute)) :=
        hl ▸ List.mem_singleton_self l
      exact (List.mem_filter.mp hmem2).1
    simp only [List.map_cons, List.map_nil]
    rw [hids l hlmem]

theorem blocks_finished_ids (fixed : String → Option ℤ)
    (f : String → Option (Option String))
    (blocks : List (List ScheduleLeg)) (ts : List Train)
    (hforall : List.Forall₂ (fun b t => blockOK fixed t b) blocks ts)
    (hf : ∀ t ∈ ts, f t.id = some t.route.getLast?)
    (hnodup : ∀ t ∈ ts, t.route.Nodup) :
    ((blocks.flatten.filter
      (fun l => decide (f l.train_id = some (some l.section_id)))).map
        (fun l => l.train_id))
      = (ts.filter (fun t => !t.route.isEmpty)).map (fun t => t.id) := by
  induction hforall with
  | nil => rfl
  | cons hbt hforall2 ih =>
    rename_i b t blocks2 ts2
    have hsing := block_finished_singleton fixed f t b hbt
      (hf t (List.mem_cons_self _ _)) (hnodup t (List.mem_cons_self _ _))
    have hrest := ih (fun u hu => hf u (List.mem_cons_of_mem _ hu))
      (fun u hu => hnodup u (List.mem_cons_of_mem _ hu))
    simp only [List.flatten_cons, List.filter_append, List.map_append,
      hsing, hrest, List.filter_cons]
    by_cases hroute : t.route.isEmpty = true
    · rw [hroute]
      simp
    · simp only [Bool.not_eq_true] at hroute
      rw [hroute]
      simp

/-- C9: for scenarios scheduled without error whose routes have no repeated
sections (and trains have distinct ids), the objective's throughput equals
the claimed count — distinct trains whose last emitted leg's section is the
last element of their route — and total_delay_min is 0. -/
theorem objective_throughput_correct (sections : List Section) (sc : Scenario)
    (now : ℤ) (sched : Schedule)
    (h : generate_feasible_schedule sections sc now = .ok sched)
    (hids : (sc.trains.map (fun t => t.id)).Nodup)
    (hroutes : ∀ t ∈ sc.trains, t.route.Nodup) :
    sched.objective.throughput = claimed_throughput sc.trains sched.legs ∧
    sched.objective.total_delay_min = 0 := by
  obtain ⟨hcore, _, _⟩ := generate_ok_inv sections sc now sched h
  obtain ⟨le2, hrun, hobj⟩ :=
    generate_core_ok_inv sections sc sched.legs sched.objective hcore
  obtain ⟨blocks, hflat, hforall⟩ :=
    runTrains_ok_blocks (dictOf sections) (parse_fixed_overrides sc.overrides)
      (trains_sorted sc.trains) (fun _ => none) sched.legs le2 hrun
  have hsortnodup : ((trains_sorted sc.trains).map (fun t => t.id)).Nodup :=
    ((trains_sorted_perm sc.trains).map (fun t => t.id)).nodup_iff.mpr hids
  have hfmem : ∀ t ∈ trains_sorted sc.trains,
      lastSectionsMap sc.trains t.id = some t.route.getLast? :=
    fun t ht => lastSectionsMap_eq sc.trains t
      ((trains_sorted_perm sc.trains).mem_iff.mp ht) hids
  have hnodupmem : ∀ t ∈ trains_sorted sc.trains, t.route.Nodup :=
    fun t ht => hroutes t ((trains_sorted_perm sc.trains).mem_iff.mp ht)
  have hfin : finished_trains sc.trains sched.legs
      = ((trains_sorted sc.trains).filter
          (fun t => !t.route.isEmpty)).map (fun t => t.id) := by
    unfold finished_trains
    rw [hflat]
    rw [blocks_finished_ids (parse_fixed_overrides sc.overrides)
      (lastSectionsMap sc.trains) blocks (trains_sorted sc.trains) hforall
      hfmem hnodupmem]
    exact List.dedup_eq_self.mpr
      (List.Nodup.sublist
        (List.Sublist.map (fun t => t.id)
          (List.filter_sublist (trains_sorted sc.trains))) hsortnodup)
  have hP : ∀ t ∈ sc.trains,
      (match (sched.legs.filter
          (fun l => decide (l.train_id = t.id))).getLast? with
       | some l => decide (t.route.getLast? = some l.section_id)
       | none => false) = !t.route.isEmpty := by
    intro t ht
    obtain ⟨hmapb, _, _⟩ :=
      generate_filter_block sections sc now sched h hids t ht
    by_cases hroute : t.route = []
    · have hbnil : sched.legs.filter
          (fun l => decide (l.train_id = t.id)) = [] := by
        rw [hroute] at hmapb
        exact List.map_eq_nil_iff.mp hmapb
      rw [hbnil, hroute]
      simp
    · have hbne : sched.legs.filter
          (fun l => decide (l.train_id = t.id)) ≠ [] := by
        intro hb
        rw [hb] at hmapb
        exact hroute hmapb.symm
      rw [List.getLast?_eq_getLast_of_ne_nil hbne]
      have hlastsec : t.route.getLast? = some
          (((sched.legs.filter
            (fun l => decide (l.train_id = t.id))).getLast hbne).section_id)
          := by
        rw [← hmapb, List.getLast?_map,
          List.getLast?_eq_getLast_of_ne_nil hbne]
        rfl
      simp only []
      rw [hlastsec]
      simp [hroute]
  have hclaimed : claimed_throughput sc.trains sched.legs
      = (sc.trains.filter (fun t => !t.route.isEmpty)).length := by
    unfold claimed_throughput
    rw [List.filter_congr hP]
  constructor
  · rw [hobj, hclaimed]
    show (finished_trains sc.trains sched.legs).length = _
    rw [hfin, List.length_map]
    exact ((trains_sorted_perm sc.trains).filter
      (fun t => !t.route.isEmpty)).length_eq
  · rw [hobj]

/-- Witness for C9 at `Wscen1`: both trains complete their one-section
route; throughput 2, total delay 0. -/
theorem objective_throughput_correct_witness :
    Wsched1.objective.throughput =
      claimed_throughput Wscen1.trains Wsched1.legs ∧
    Wsched1.objective.total_delay_min = 0 :=
  objective_throughput_correct [Wsec1, Wsec2] Wscen1 0 Wsched1
    (by with_unfolding_all rfl) (by with_unfolding_all decide)
    (by intro t ht; fin_cases ht <;> decide)

/-- C10: a train with an empty route is accepted: any failure of the request
is caused by a section in some train's route (never by the empty-route
train), and on success that train contributes no legs, its id is not counted
toward the throughput (which counts `finished_trains`), while every train's
legs still cover exactly its own route. -/
theorem empty_route_train (sections : List Section) (sc : Scenario) (now : ℤ)
    (t0 : Train) (ht0 : t0 ∈ sc.trains) (hroute : t0.route = [])
    (hids : (sc.trains.map (fun t => t.id)).Nodup) :
    (∀ e, generate_feasible_schedule sections sc now = .error e →
      ∃ t ∈ sc.trains, ∃ sid ∈ t.route, dictOf sections sid = none) ∧
    (∀ sched, generate_feasible_schedule sections sc now = .ok sched →
      sched.legs.filter (fun l => decide (l.train_id = t0.id)) = [] ∧
      t0.id ∉ finished_trains sc.trains sched.legs ∧
      sched.objective.throughput =
        (finished_trains sc.trains sched.legs).length ∧
      ∀ t ∈ sc.trains,
        (sched.legs.filter (fun l => decide (l.train_id = t.id))).map
          (fun l => l.section_id) = t.route) := by
  constructor
  · intro e he
    have hrun := generate_core_error_inv sections sc e
      (generate_error_inv sections sc now e he)
    obtain ⟨t1, ht1, sid, hsid, hnone, _⟩ :=
      runTrains_error_inv (dictOf sections)
        (parse_fixed_overrides sc.overrides) (trains_sorted sc.trains)
        (fun _ => none) e hrun
    exact ⟨t1, (trains_sorted_perm sc.trains).mem_iff.mp ht1, sid, hsid,
      hnone⟩
  · intro sched hok
    have hblock0 := generate_filter_block sections sc now sched hok hids t0 ht0
    have hfilter0 : sched.legs.filter
        (fun l => decide (l.train_id = t0.id)) = [] := by
      have hm := hblock0.1
      rw [hroute] at hm
      exact List.map_eq_nil_iff.mp hm
    refine ⟨hfilter0, ?_, ?_, ?_⟩
    · intro hmem
      unfold finished_trains at hmem
      rw [List.mem_dedup] at hmem
      obtain ⟨l, hl, hlid⟩ := List.mem_map.mp hmem
      have hl2 : l ∈ sched.legs := (List.mem_filter.mp hl).1
      have hl3 : l ∈ sched.legs.filter
          (fun l => decide (l.train_id = t0.id)) :=
        List.mem_filter.mpr ⟨hl2, by simp [hlid]⟩
      rw [hfilter0] at hl3
      exact absurd hl3 (List.not_mem_nil l)
    · obtain ⟨hcore, _, _⟩ := generate_ok_inv sections sc now sched hok
      obtain ⟨le2, _, hobj⟩ :=
        generate_core_ok_inv sections sc sched.legs sched.objective hcore
      rw [hobj]
    · intro t ht
      exact (generate_filter_block sections sc now sched hok hids t ht).1

/-- Witness for C10 at `Wscen10`: train E has an empty route next to the
normal train A. -/
theorem empty_route_train_witness :
    (∀ e, generate_feasible_schedule [Wsec1, Wsec2] Wscen10 0 = .error e →
      ∃ t ∈ Wscen10.trains, ∃ sid ∈ t.route,
        dictOf [Wsec1, Wsec2] sid = none) ∧
    (∀ sched,
      generate_feasible_schedule [Wsec1, Wsec2] Wscen10 0 = .ok sched →
      sched.legs.filter (fun l => decide (l.train_id = WtrainE.id)) = [] ∧
      WtrainE.id ∉ finished_trains Wscen10.trains sched.legs ∧
      sched.objective.throughput =
        (finished_trains Wscen10.trains sched.legs).length ∧
      ∀ t ∈ Wscen10.trains,
        (sched.legs.filter (fun l => decide (l.train_id = t.id))).map
          (fun l => l.section_id) = t.route) :=
  empty_route_train [Wsec1, Wsec2] Wscen10 0 WtrainE
    (by with_unfolding_all decide) (by decide) (by with_unfolding_all decide)
